import Mathlib

/-
Verification development for the chess rule engine embedded in
chess_viewer.c: board model, pseudo-legal move validator, SAN parser
with disambiguation, and PGN movetext tokenizer.

The board is the C global `char board[8][8]`, modelled as a total
function from (row, file) to a piece character ('.' for empty).
Coordinates are Int, matching the C `int` indices; reads and writes
outside [0,8) x [0,8) are undefined behavior in C and are totalized
here (reads yield '.', writes only affect squares whose Int coordinates
match exactly, which an in-range read can only observe for in-range
writes).  `parse_san` in C transiently mutates the global board during
speculative trials and restores it from a saved copy; the embedding
threads the board value through and returns the final board alongside
the parse result, so that the restore discipline is a provable
statement.
-/

namespace CV

/-- The C global board `char board[8][8]`, as a total function. -/
abbrev Board := Nat → Nat → Char

/-- The C string terminator character. -/
def nullChar : Char := Char.ofNat 0

/-- C `toupper` restricted to ASCII, as used on piece characters. -/
def toupperC (c : Char) : Char :=
  if 'a' ≤ c ∧ c ≤ 'z' then Char.ofNat (c.toNat - 32) else c

/-- C `tolower` restricted to ASCII, as used on piece characters. -/
def tolowerC (c : Char) : Char :=
  if 'A' ≤ c ∧ c ≤ 'Z' then Char.ofNat (c.toNat + 32) else c

/-- `is_white_piece` from chess_viewer.c: uppercase letters are White. -/
def is_white_piece (c : Char) : Bool :=
  decide ('A' ≤ c) && decide (c ≤ 'Z')

/-- Read `board[r][f]`; out-of-range reads (UB in C) yield '.'. -/
def getSq (b : Board) (r f : Int) : Char :=
  if 0 ≤ r ∧ r < 8 ∧ 0 ≤ f ∧ f < 8 then b r.toNat f.toNat else '.'

/-- Write `board[r][f] = c`.  Only the square whose Int coordinates
match is affected (a negative coordinate matches no Nat index). -/
def setSq (b : Board) (r f : Int) (c : Char) : Board :=
  fun i j => if (i : Int) = r ∧ (j : Int) = f then c else b i j

/-- Build a board from a list of 8 rows of 8 characters (row 0 = rank 8). -/
def boardOfRows (rows : List (List Char)) : Board :=
  fun i j => ((rows.getD i []).getD j '.')

/-- `init_board` from chess_viewer.c: the standard initial position. -/
def initBoard : Board :=
  boardOfRows [("rnbqkbnr").data, ("pppppppp").data, ("........").data,
               ("........").data, ("........").data, ("........").data,
               ("PPPPPPPP").data, ("RNBQKBNR").data]

/-- The board squares in the scan order used by every loop in the C
code: rank-major (outer r), file-minor (inner f). -/
def allSquares : List (Int × Int) :=
  (List.range 8).flatMap (fun r => (List.range 8).map (fun f => ((r : Int), (f : Int))))

/-- `sign` from chess_viewer.c. -/
def sign (x : Int) : Int := if 0 < x then 1 else if x < 0 then -1 else 0

/-- Row step of the path walk in `is_path_clear`. -/
def pathDr (from_r to_r : Int) : Int := sign (to_r - from_r)

/-- File step of the path walk in `is_path_clear`. -/
def pathDf (from_f to_f : Int) : Int := sign (to_f - from_f)

/-- `steps` of `is_path_clear`: `(dr == 0) ? abs(to_f-from_f) : abs(to_r-from_r)`. -/
def pathSteps (from_r from_f to_r to_f : Int) : Nat :=
  if pathDr from_r to_r = 0 then (to_f - from_f).natAbs else (to_r - from_r).natAbs

/-- `is_path_clear` from chess_viewer.c: the loop checks squares
`(from_r + i*dr, from_f + i*df)` for `i = 1 .. steps-1`, i.e. every
square strictly between origin and destination along the walked line. -/
def is_path_clear (b : Board) (from_r from_f to_r to_f : Int) : Bool :=
  (List.range' 1 (pathSteps from_r from_f to_r to_f - 1)).all
    (fun i => getSq b (from_r + (i : Int) * pathDr from_r to_r)
                      (from_f + (i : Int) * pathDf from_f to_f) == '.')

/-- `is_valid_move` from chess_viewer.c: per-piece pseudo-legal movement
test against the current board. -/
def is_valid_move (b : Board) (piece : Char) (from_r from_f to_r to_f : Int)
    (is_white capture : Bool) : Bool :=
  let dr := (to_r - from_r).natAbs
  let df := (to_f - from_f).natAbs
  let p := toupperC piece
  let dir : Int := if is_white then -1 else 1
  let at_to := getSq b to_r to_f
  let is_empty := at_to == '.'
  let is_enemy := !is_empty && (is_white_piece at_to != is_white)
  let movement_valid : Bool :=
    if p = 'P' then
      if df = 0 then
        if capture then false
        else if !is_empty then false
        else if dr = 1 ∧ to_r - from_r = dir then true
        else if dr = 2 ∧ ((is_white ∧ from_r = 6) ∨ (is_white = false ∧ from_r = 1))
                ∧ to_r - from_r = 2 * dir then
          is_path_clear b from_r from_f to_r to_f
        else false
      else if df = 1 ∧ dr = 1 ∧ to_r - from_r = dir then
        if capture && is_enemy then true
        else if capture && is_empty then
          let ep_rank : Int := if is_white then 3 else 4
          decide (from_r = ep_rank) && (getSq b from_r to_f == (if is_white then 'p' else 'P'))
        else false
      else false
    else if p = 'N' then
      decide ((dr = 1 ∧ df = 2) ∨ (dr = 2 ∧ df = 1))
    else if p = 'B' then
      decide (dr = df ∧ 0 < dr) && is_path_clear b from_r from_f to_r to_f
    else if p = 'R' then
      decide ((dr = 0 ∨ df = 0) ∧ 0 < dr + df) && is_path_clear b from_r from_f to_r to_f
    else if p = 'Q' then
      decide ((dr = df ∨ dr = 0 ∨ df = 0) ∧ 0 < dr + df) && is_path_clear b from_r from_f to_r to_f
    else if p = 'K' then
      decide (dr ≤ 1 ∧ df ≤ 1 ∧ 0 < dr + df)
    else false
  if movement_valid then
    (if capture then is_enemy || (decide (p = 'P') && is_empty) else is_empty)
  else false

/-- The king-location scan of `is_in_check`: first matching square in
rank-major, file-minor order. -/
def find_king (b : Board) (king : Char) : Option (Int × Int) :=
  allSquares.find? (fun s => getSq b s.1 s.2 == king)

/-- `is_in_check` from chess_viewer.c: locate the king; with no king,
report not-in-check; otherwise test every enemy piece for a
pseudo-legal capture of the king's square. -/
def is_in_check (b : Board) (is_white : Bool) : Bool :=
  match find_king b (if is_white then 'K' else 'k') with
  | none => false
  | some k =>
    allSquares.any (fun s =>
      let p := getSq b s.1 s.2
      !(p == '.') && (is_white_piece p == !is_white) &&
        is_valid_move b p s.1 s.2 k.1 k.2 (!is_white) true)

/-- The `Move` struct of chess_viewer.c (`promo = '\0'` means none). -/
structure Move where
  from_r : Int
  from_f : Int
  to_r : Int
  to_f : Int
  promo : Char
deriving DecidableEq

/-- `apply_move` from chess_viewer.c: en passant removal, promotion
substitution, origin clearing, and castling rook relocation. -/
def apply_move (b : Board) (m : Move) (is_white : Bool) : Board :=
  let piece := getSq b m.from_r m.from_f
  let captured := getSq b m.to_r m.to_f
  let dir : Int := if is_white then -1 else 1
  let b1 := if toupperC piece = 'P' ∧ (m.from_f - m.to_f).natAbs = 1 ∧ captured = '.'
            then setSq b (m.to_r - dir) m.to_f '.' else b
  let placed := if m.promo ≠ nullChar
                then (if is_white then toupperC m.promo else tolowerC m.promo) else piece
  let b2 := setSq b1 m.to_r m.to_f placed
  let b3 := setSq b2 m.from_r m.from_f '.'
  if toupperC piece = 'K' ∧ (m.from_f - m.to_f).natAbs = 2 then
    let rook_to : Int := if m.from_f < m.to_f then 5 else 3
    let rook_from : Int := if m.from_f < m.to_f then 7 else 0
    let rook := if is_white then 'R' else 'r'
    setSq (setSq b3 m.from_r rook_to rook) m.from_r rook_from '.'
  else b3

/-- The token-only data `parse_san` extracts before scanning the board
for candidates: destination, promotion, mover character, capture flag,
and disambiguation hints (−1 meaning absent, as in the C ints). -/
structure Decoded where
  to_r : Int
  to_f : Int
  promo : Char
  target : Char
  capture : Bool
  hint_f : Int
  hint_r : Int
deriving DecidableEq

/-- The output `Move` of `parse_san` before a candidate origin is
filled in (the C code writes `to_r`, `to_f`, `promo` into `m` first). -/
def Decoded.m0 (d : Decoded) : Move :=
  ⟨0, 0, d.to_r, d.to_f, d.promo⟩

/-- Result of the board-independent front half of `parse_san`. -/
inductive DecodeResult where
  | fail : DecodeResult
  | castle : Move → DecodeResult
  | normal : Decoded → DecodeResult
deriving DecidableEq

/-- The check/mate-suffix strip at the top of `parse_san`: at most one
trailing '+' or '#' is removed (the C code assumes a nonempty token;
on an empty token it would read out of bounds, totalized here as a
no-op). -/
def stripCheck (cs : List Char) : List Char :=
  match cs.getLast? with
  | some c => if c = '+' ∨ c = '#' then cs.dropLast else cs
  | none => cs

/-- The board-independent front half of `parse_san` (chess_viewer.c
lines 548-617): strip decoration, recognize castling tokens, split the
promotion suffix, read the destination square, the piece letter, the
capture marker and the disambiguation hint. -/
def decode_san (san : List Char) (is_white : Bool) : DecodeResult :=
  let cs := stripCheck san
  if cs = ("O-O").data ∨ cs = ("0-0").data then
    .castle ⟨(if is_white then 7 else 0), 4, (if is_white then 7 else 0), 6, nullChar⟩
  else if cs = ("O-O-O").data ∨ cs = ("0-0-0").data then
    .castle ⟨(if is_white then 7 else 0), 4, (if is_white then 7 else 0), 2, nullChar⟩
  else
    let pre := cs.takeWhile (fun c => c ≠ '=')
    let promo : Char := if pre.length = cs.length then nullChar
                        else (cs.drop (pre.length + 1)).headD nullChar
    let len := pre.length
    if len < 2 then .fail
    else
      let fc := pre.getD (len - 2) nullChar
      let rc := pre.getD (len - 1) nullChar
      let to_f : Int := (fc.toNat : Int) - 97
      let to_r : Int := 7 - ((rc.toNat : Int) - 49)
      if to_r < 0 ∨ 8 ≤ to_r ∨ to_f < 0 ∨ 8 ≤ to_f then .fail
      else
        let c0 := pre.headD nullChar
        let explicitPiece : Bool :=
          decide (('A' ≤ c0 ∧ c0 ≤ 'Z') ∧
                  (c0 = 'R' ∨ c0 = 'N' ∨ c0 = 'B' ∨ c0 = 'Q' ∨ c0 = 'K'))
        let piece := if explicitPiece then c0 else 'P'
        let hint_start : Nat := if explicitPiece then 1 else 0
        let zone : List Char := (pre.take (len - 2)).drop hint_start
        let capture_pos : Nat :=
          match zone.findIdx? (fun c => c = 'x') with
          | some j => hint_start + j
          | none => 0
        let capture : Bool := decide ((0 : Nat) < capture_pos)
        let hint_len : Nat := (if (0 : Nat) < capture_pos then capture_pos else len - 2) - hint_start
        let hint := (pre.drop hint_start).take hint_len
        let hl := hint.length
        let hints : Int × Int :=
          if hl = 1 then
            let h0 := hint.headD nullChar
            if 'a' ≤ h0 ∧ h0 ≤ 'z' then ((h0.toNat : Int) - 97, -1)
            else if '0' ≤ h0 ∧ h0 ≤ '9' then (-1, 7 - ((h0.toNat : Int) - 49))
            else (-1, -1)
          else if hl = 2 then
            ((((hint.headD nullChar).toNat : Int) - 97),
             7 - (((hint.getD 1 nullChar).toNat : Int) - 49))
          else (-1, -1)
        let target := if is_white then piece else tolowerC piece
        .normal ⟨to_r, to_f, promo, target, capture, hints.1, hints.2⟩

/-- The hint filter of the candidate scan:
`(hint_f >= 0 && f != hint_f) || (hint_r >= 0 && r != hint_r)` skips. -/
def hintOK (d : Decoded) (r f : Int) : Bool :=
  !((decide (0 ≤ d.hint_f) && decide (f ≠ d.hint_f)) ||
    (decide (0 ≤ d.hint_r) && decide (r ≠ d.hint_r)))

/-- The candidate-generation scan of `parse_san` (lines 625-636):
every square holding the mover's piece character, passing the hint
filter, and pseudo-legal against the destination. -/
def gen_candidates (b : Board) (d : Decoded) (is_white : Bool) : List (Int × Int) :=
  allSquares.filter (fun s =>
    (getSq b s.1 s.2 == d.target) && hintOK d s.1 s.2 &&
      is_valid_move b d.target s.1 s.2 d.to_r d.to_f is_white d.capture)

/-- Fill a candidate origin into the output move. -/
def withFrom (m : Move) (c : Int × Int) : Move :=
  { m with from_r := c.1, from_f := c.2 }

/-- The ambiguity-resolution loop of `parse_san` (lines 646-663): for
each candidate, save the board, apply the move speculatively, test the
mover's king for check on the mutated board, and restore the saved
board before returning or continuing. -/
def resolve_ambiguity (b : Board) (m0 : Move) (is_white : Bool) :
    List (Int × Int) → Option Move × Board
  | [] => (none, b)
  | c :: rest =>
    let m1 := withFrom m0 c
    let mutated := apply_move b m1 is_white
    if is_in_check mutated is_white then resolve_ambiguity b m0 is_white rest
    else (some m1, b)

/-- `parse_san` from chess_viewer.c, with the final global board
threaded through as the second component of the result. -/
def parse_san (b : Board) (san : String) (is_white : Bool) : Option Move × Board :=
  match decode_san san.data is_white with
  | .fail => (none, b)
  | .castle m => (some m, b)
  | .normal d =>
    match gen_candidates b d is_white with
    | [] => (none, b)
    | [c] => (some (withFrom d.m0 c), b)
    | c1 :: c2 :: rest => resolve_ambiguity b d.m0 is_white (c1 :: c2 :: rest)

/-- `clean_line` from chess_viewer.c, as a recursion over the line with
the two suppression flags; a ';' skips to the next newline. -/
def clean_line_aux (in_comment in_var : Bool) : List Char → List Char
  | [] => []
  | c :: rest =>
    if c = '\x7b' then clean_line_aux true in_var rest
    else if c = '\x7d' then clean_line_aux false in_var rest
    else if c = '(' then clean_line_aux in_comment true rest
    else if c = ')' then clean_line_aux in_comment false rest
    else if c = ';' then clean_line_aux in_comment in_var (rest.dropWhile (fun x => x ≠ '\n'))
    else if !in_comment && !in_var then c :: clean_line_aux in_comment in_var rest
    else clean_line_aux in_comment in_var rest
termination_by l => l.length
decreasing_by
  all_goals simp_wf
  all_goals exact Nat.lt_succ_of_le ((List.dropWhile_sublist _).length_le)

/-- `clean_line` entry point: both suppression modes start off. -/
def clean_line (l : List Char) : List Char := clean_line_aux false false l

/-- `extract_san_token` from chess_viewer.c: strip a move-number
prefix (digits followed by dots) or leading dots, stop at the first
'!' or '?', clamp to the output buffer size; empty results fail. -/
def extract_san_token (token : String) (out_size : Nat) : Option String :=
  let cs := token.data
  let p :=
    match cs with
    | c :: _ =>
      if '0' ≤ c ∧ c ≤ '9' then
        let q := cs.dropWhile (fun x => '0' ≤ x ∧ x ≤ '9')
        match q with
        | '.' :: _ => q.dropWhile (fun x => x = '.')
        | _ => cs
      else cs.dropWhile (fun x => x = '.')
    | [] => []
  if p = [] then none
  else
    let len := (p.takeWhile (fun c => c ≠ '!' ∧ c ≠ '?')).length
    if len = 0 then none
    else some (String.mk (p.take (min len (out_size - 1))))

/-- `is_result_token` from chess_viewer.c. -/
def is_result_token (san : String) : Bool :=
  san == "1-0" || san == "0-1" || san == "1/2-1/2" || san == "*"

/-- The token loop of `build_move_list`: extract each token, stop at a
result token (reported separately), append others while below the
move-capacity cap. -/
def build_move_list_aux (count max_moves : Nat) :
    List String → List String × Option String
  | [] => ([], none)
  | t :: rest =>
    match extract_san_token t 32 with
    | none => build_move_list_aux count max_moves rest
    | some san =>
      if is_result_token san then ([], some san)
      else if count < max_moves then
        let tail := build_move_list_aux (count + 1) max_moves rest
        (san :: tail.1, tail.2)
      else build_move_list_aux count max_moves rest

/-- The delimiter set of the `strtok` calls in `build_move_list`. -/
def wsChar (c : Char) : Bool :=
  c == ' ' || c == '\t' || c == '\n' || c == '\r'

/-- Accumulator pass of the `strtok(.., " \t\n\r")` split: maximal
nonempty runs of non-delimiter characters, in order. -/
def splitWSAux : List Char → List Char → List String
  | [], acc => if acc = [] then [] else [String.mk acc.reverse]
  | c :: rest, acc =>
    if wsChar c then
      if acc = [] then splitWSAux rest []
      else String.mk acc.reverse :: splitWSAux rest []
    else splitWSAux rest (c :: acc)

/-- The whitespace split performed by `strtok(.., " \t\n\r")` on the
(64 KiB-truncated) copy of the movetext buffer. -/
def tokenize (buffer : String) : List String :=
  splitWSAux (buffer.data.take 65535) []

/-- `build_move_list` from chess_viewer.c. -/
def build_move_list (buffer : String) (max_moves : Nat) : List String × Option String :=
  build_move_list_aux 0 max_moves (tokenize buffer)

/-- A board with only a White pawn on e7 (square (1,4)). -/
def pawnOnE7 : Board :=
  boardOfRows [("........").data, ("....P...").data, ("........").data,
               ("........").data, ("........").data, ("........").data,
               ("........").data, ("........").data]

/-- A board with a White pawn on (3,4) and a Black pawn on (3,3),
laterally adjacent on White's fourth rank (the en passant scenario). -/
def epBoard : Board :=
  boardOfRows [("........").data, ("........").data, ("........").data,
               ("...pP...").data, ("........").data, ("........").data,
               ("........").data, ("........").data]

/-- A board with a White pawn on (4,2), a Black knight on (3,3) and an
empty square (2,3): used to exhibit the en passant removal square of
`apply_move` for a move the parser would never produce. -/
def wildPawnBoard : Board :=
  boardOfRows [("........").data, ("........").data, ("........").data,
               ("...n....").data, ("..P.....").data, ("........").data,
               ("........").data, ("........").data]

/-- A board with a White king on (0,0) attacked by a Black rook on (0,7). -/
def rookCheckBoard : Board :=
  boardOfRows [("K......r").data, ("........").data, ("........").data,
               ("........").data, ("........").data, ("........").data,
               ("........").data, ("........").data]

/-- The empty board. -/
def emptyBoard : Board := fun _ _ => '.'

/-- The `Decoded` value of the token `Nf3`. -/
def dNf3 : Decoded := ⟨5, 5, nullChar, 'N', false, -1, -1⟩

/-! Helper lemmas about the board model and the parser loops. -/

/-- Writing one square leaves every other square unchanged (a negative
or too-large write coordinate affects no readable square at all). -/
theorem getSq_setSq_ne (b : Board) (r' f' : Int) (c : Char) (r f : Int)
    (h : r ≠ r' ∨ f ≠ f') : getSq (setSq b r' f' c) r f = getSq b r f := by
  unfold getSq setSq
  by_cases hr : 0 ≤ r ∧ r < 8 ∧ 0 ≤ f ∧ f < 8
  · simp only [if_pos hr]
    rw [if_neg]
    rintro ⟨h1, h2⟩
    rcases h with h | h <;> omega
  · simp only [if_neg hr]

/-- Reading back an in-range write yields the written character. -/
theorem getSq_setSq_self (b : Board) (r f : Int) (c : Char)
    (h : 0 ≤ r ∧ r < 8 ∧ 0 ≤ f ∧ f < 8) : getSq (setSq b r f c) r f = c := by
  unfold getSq setSq
  rw [if_pos h, if_pos ⟨by omega, by omega⟩]

/-- The ambiguity loop always hands back the saved board: every exit
path of the C loop restores `board` from `temp_board`. -/
theorem resolve_ambiguity_snd (m0 : Move) (w : Bool) (b : Board) :
    ∀ l : List (Int × Int), (resolve_ambiguity b m0 w l).2 = b := by
  intro l
  induction l with
  | nil => rfl
  | cons c rest ih =>
    simp only [resolve_ambiguity]
    split
    · exact ih
    · rfl

/-- The ambiguity loop returns the first candidate, in list order,
whose speculative application leaves the mover's king out of check. -/
theorem resolve_ambiguity_fst (m0 : Move) (w : Bool) (b : Board) :
    ∀ l : List (Int × Int), (resolve_ambiguity b m0 w l).1 =
      (l.find? (fun c => !is_in_check (apply_move b (withFrom m0 c) w) w)).map
        (withFrom m0) := by
  intro l
  induction l with
  | nil => rfl
  | cons c rest ih =>
    simp only [resolve_ambiguity, List.find?]
    by_cases hc : is_in_check (apply_move b (withFrom m0 c) w) w
    · simp [hc, ih]
    · simp [hc]

/-- Claim C1: for every SAN token, side to move and board whose token
decodes to the candidate-scanning path, `parse_san` fails on zero
candidates, accepts a unique candidate directly (no king-safety
trial), and on multiple candidates accepts the first one — in the
rank-major, file-minor order of the generating scan — whose
speculative application leaves the mover's own king out of check
(`find?` returns `none`, hence parse failure, when every candidate
leaves the king in check). -/
theorem parse_san_disambiguation (b : Board) (san : String) (w : Bool) (d : Decoded)
    (h : decode_san san.data w = DecodeResult.normal d) :
    (gen_candidates b d w = [] → (parse_san b san w).1 = none) ∧
    (∀ c, gen_candidates b d w = [c] → (parse_san b san w).1 = some (withFrom d.m0 c)) ∧
    (2 ≤ (gen_candidates b d w).length →
      (parse_san b san w).1 =
        ((gen_candidates b d w).find? (fun c =>
            !is_in_check (apply_move b (withFrom d.m0 c) w) w)).map (withFrom d.m0)) := by
  unfold parse_san
  rw [h]
  dsimp only
  refine ⟨?_, ?_, ?_⟩
  · intro hg
    rw [hg]
  · intro c hg
    rw [hg]
  · intro hlen
    rcases hg : gen_candidates b d w with _ | ⟨c1, _ | ⟨c2, rest⟩⟩
    · rw [hg] at hlen
      simp only [List.length_nil] at hlen
      omega
    · rw [hg] at hlen
      simp only [List.length_cons, List.length_nil] at hlen
      omega
    · exact resolve_ambiguity_fst d.m0 w b _

/-- Witness for C1: on the initial board the token `Nf3` decodes to the
candidate path, the scan finds the single candidate (7,6), and
`parse_san` accepts it. -/
theorem parse_san_disambiguation_witness :
    decode_san ("Nf3").data true = DecodeResult.normal dNf3 ∧
    gen_candidates initBoard dNf3 true = [(7, 6)] ∧
    (parse_san initBoard ("Nf3") true).1 = some ⟨7, 6, 5, 5, nullChar⟩ := by
  refine ⟨by decide, by decide, ?_⟩
  exact (parse_san_disambiguation initBoard ("Nf3") true dNf3 (by decide)).2.1
    (7, 6) (by decide)

/-- Claim C2: `parse_san` always hands back the board it was given —
the speculative trial applications of the disambiguation loop are
always reverted, and no other path touches the board. -/
theorem parse_san_preserves_board (b : Board) (san : String) (w : Bool) :
    (parse_san b san w).2 = b := by
  unfold parse_san
  rcases hd : decode_san san.data w with _ | m | d
  · rfl
  · rfl
  · dsimp only
    rcases hg : gen_candidates b d w with _ | ⟨c1, _ | ⟨c2, rest⟩⟩
    · rfl
    · rfl
    · exact resolve_ambiguity_snd d.m0 w b _

/-- Claim C3: on any board with a White pawn on (3,4), a Black pawn on
(3,3) and an empty (2,3), the validator accepts the one-square
diagonal pawn move (3,4)→(2,3) as a capture with empty destination
(en passant), and applying that move removes the Black pawn at (3,3). -/
theorem en_passant_capture (b : Board)
    (hP : getSq b 3 4 = 'P') (hp : getSq b 3 3 = 'p') (hd : getSq b 2 3 = '.') :
    is_valid_move b 'P' 3 4 2 3 true true = true ∧
    getSq (apply_move b ⟨3, 4, 2, 3, nullChar⟩ true) 3 3 = '.' := by
  constructor
  · simp only [is_valid_move]
    rw [hd, hp]
    simp [toupperC, is_white_piece]
  · simp only [apply_move]
    rw [hP, hd]
    simp only [if_pos (by decide :
      toupperC 'P' = 'P' ∧ ((4 : Int) - 3).natAbs = 1 ∧ ('.' : Char) = '.')]
    rw [if_neg (by decide : ¬(toupperC 'P' = 'K' ∧ ((4 : Int) - 3).natAbs = 2))]
    rw [getSq_setSq_ne _ _ _ _ _ _ (by omega), getSq_setSq_ne _ _ _ _ _ _ (by omega)]
    exact getSq_setSq_self b 3 3 '.' (by omega)

/-- Witness for C3: the hypotheses and conclusions hold on the concrete
en passant board. -/
theorem en_passant_capture_witness :
    (getSq epBoard 3 4 = 'P' ∧ getSq epBoard 3 3 = 'p' ∧ getSq epBoard 2 3 = '.') ∧
    (is_valid_move epBoard 'P' 3 4 2 3 true true = true ∧
     getSq (apply_move epBoard ⟨3, 4, 2, 3, nullChar⟩ true) 3 3 = '.') :=
  ⟨by decide, en_passant_capture epBoard (by decide) (by decide) (by decide)⟩

/-- Claim C4: on every board and for either side — with no board
hypothesis at all, so no board inspection can matter — the castling
tokens `O-O`/`0-0` parse to the king move file 4 → file 6 on the
mover's home rank and `O-O-O`/`0-0-0` to file 4 → file 2; and when the
board holds the king on (7,4) (and the rook on (7,7)), applying
White's kingside move (7,4)→(7,6) also relocates the rook from (7,7)
to (7,5). -/
theorem castling_tokens (b : Board) (w : Bool) :
    ((parse_san b ("O-O") w).1 =
        some ⟨if w then 7 else 0, 4, if w then 7 else 0, 6, nullChar⟩ ∧
     (parse_san b ("0-0") w).1 =
        some ⟨if w then 7 else 0, 4, if w then 7 else 0, 6, nullChar⟩ ∧
     (parse_san b ("O-O-O") w).1 =
        some ⟨if w then 7 else 0, 4, if w then 7 else 0, 2, nullChar⟩ ∧
     (parse_san b ("0-0-0") w).1 =
        some ⟨if w then 7 else 0, 4, if w then 7 else 0, 2, nullChar⟩) ∧
    (getSq b 7 4 = 'K' → getSq b 7 7 = 'R' →
     getSq (apply_move b ⟨7, 4, 7, 6, nullChar⟩ true) 7 5 = 'R' ∧
     getSq (apply_move b ⟨7, 4, 7, 6, nullChar⟩ true) 7 7 = '.' ∧
     getSq (apply_move b ⟨7, 4, 7, 6, nullChar⟩ true) 7 6 = 'K' ∧
     getSq (apply_move b ⟨7, 4, 7, 6, nullChar⟩ true) 7 4 = '.') := by
  constructor
  · exact ⟨rfl, rfl, rfl, rfl⟩
  · intro hK _hR
    simp only [apply_move]
    rw [hK]
    simp only [if_pos (by decide :
      toupperC 'K' = 'K' ∧ ((4 : Int) - 6).natAbs = 2)]
    rw [if_neg (fun h => (by decide : ¬(toupperC 'K' = 'P')) h.1)]
    simp only [if_neg (by decide : ¬(nullChar ≠ nullChar))]
    simp only [if_pos (by decide : (4 : Int) < 6)]
    refine ⟨?_, ?_, ?_, ?_⟩
    · rw [getSq_setSq_ne _ _ _ _ _ _ (by omega)]
      exact getSq_setSq_self _ 7 5 'R' (by omega)
    · exact getSq_setSq_self _ 7 7 '.' (by omega)
    · rw [getSq_setSq_ne _ _ _ _ _ _ (by omega), getSq_setSq_ne _ _ _ _ _ _ (by omega),
          getSq_setSq_ne _ _ _ _ _ _ (by omega)]
      exact getSq_setSq_self _ 7 6 'K' (by omega)
    · rw [getSq_setSq_ne _ _ _ _ _ _ (by omega), getSq_setSq_ne _ _ _ _ _ _ (by omega)]
      exact getSq_setSq_self _ 7 4 '.' (by omega)

/-- Witness for C4: the initial board holds the White king on (7,4)
and a rook on (7,7); `O-O` parses to (7,4)→(7,6) for White and
applying it yields the rook on (7,5) with (7,7) empty. -/
theorem castling_tokens_witness :
    (getSq initBoard 7 4 = 'K' ∧ getSq initBoard 7 7 = 'R') ∧
    (parse_san initBoard ("O-O") true).1 = some ⟨7, 4, 7, 6, nullChar⟩ ∧
    getSq (apply_move initBoard ⟨7, 4, 7, 6, nullChar⟩ true) 7 5 = 'R' ∧
    getSq (apply_move initBoard ⟨7, 4, 7, 6, nullChar⟩ true) 7 7 = '.' := by
  have h := castling_tokens initBoard true
  have ha := h.2 (by decide) (by decide)
  exact ⟨by decide, h.1.1, ha.1, ha.2.1⟩

/-- Claim C5: on the board with a White pawn on e7 (square (1,4)),
`parse_san "e8=Q"` for White produces the move (1,4)→(0,4) with
promotion piece `Q`, and applying it places a White queen on e8
(square (0,4)) and empties e7. -/
theorem promotion_e8Q :
    (parse_san pawnOnE7 ("e8=Q") true).1 = some ⟨1, 4, 0, 4, 'Q'⟩ ∧
    (⟨1, 4, 0, 4, 'Q'⟩ : Move).promo = 'Q' ∧
    getSq (apply_move pawnOnE7 ⟨1, 4, 0, 4, 'Q'⟩ true) 0 4 = 'Q' ∧
    getSq (apply_move pawnOnE7 ⟨1, 4, 0, 4, 'Q'⟩ true) 1 4 = '.' := by
  refine ⟨by decide, rfl, by decide, by decide⟩

/-- Claim C6: `is_path_clear` is true iff every square the loop walks —
`(fr + i*dr, ff + i*df)` for `1 ≤ i < steps`, which for a rank, file or
diagonal move enumerates exactly the squares strictly between origin
and destination — is empty; consequently for a bishop, rook or queen
the validator rejects the move whenever any such strictly intervening
square is occupied, for each possible blocking square along the path. -/
theorem is_path_clear_spec (b : Board) (fr ff tr tf : Int) :
    (is_path_clear b fr ff tr tf = true ↔
      ∀ i : Nat, 1 ≤ i → i < pathSteps fr ff tr tf →
        getSq b (fr + (i : Int) * pathDr fr tr) (ff + (i : Int) * pathDf ff tf) = '.') ∧
    (∀ (piece : Char) (w capture : Bool) (i : Nat),
      1 ≤ i → i < pathSteps fr ff tr tf →
      getSq b (fr + (i : Int) * pathDr fr tr) (ff + (i : Int) * pathDf ff tf) ≠ '.' →
      toupperC piece = 'B' ∨ toupperC piece = 'R' ∨ toupperC piece = 'Q' →
      is_valid_move b piece fr ff tr tf w capture = false) := by
  have hiff : is_path_clear b fr ff tr tf = true ↔
      ∀ i : Nat, 1 ≤ i → i < pathSteps fr ff tr tf →
        getSq b (fr + (i : Int) * pathDr fr tr) (ff + (i : Int) * pathDf ff tf) = '.' := by
    unfold is_path_clear
    rw [List.all_eq_true]
    constructor
    · intro hall i h1 h2
      have hm : i ∈ List.range' 1 (pathSteps fr ff tr tf - 1) := by
        rw [List.mem_range'_1]
        omega
      have := hall i hm
      simpa using this
    · intro hp i hi
      rw [List.mem_range'_1] at hi
      simpa using hp i (by omega) (by omega)
  refine ⟨hiff, ?_⟩
  intro piece w capture i h1 h2 hocc hBRQ
  have hclear : is_path_clear b fr ff tr tf = false := by
    cases hcl : is_path_clear b fr ff tr tf with
    | false => rfl
    | true => exact absurd (hiff.mp hcl i h1 h2) hocc
  simp only [is_valid_move]
  rcases hBRQ with hB | hB | hB <;> simp [hB, hclear]

/-- Witness for C6: on the initial board, the rook move (7,0)→(7,3) is
blocked by the knight on (7,1) (step i = 1) and rejected. -/
theorem is_path_clear_spec_witness :
    ((1 : Nat) ≤ 1 ∧ 1 < pathSteps 7 0 7 3 ∧
      getSq initBoard (7 + (1 : Int) * pathDr 7 7) (0 + (1 : Int) * pathDf 0 3) ≠ '.' ∧
      toupperC 'R' = 'R') ∧
    is_valid_move initBoard 'R' 7 0 7 3 true false = false :=
  ⟨by decide, (is_path_clear_spec initBoard 7 0 7 3).2 'R' true false 1 (by decide)
    (by decide) (by decide) (Or.inr (Or.inl (by decide)))⟩

/-- The token loop of `build_move_list` run over tokens none of which
extracts to a result token, followed by a result token: it returns the
moves of the prefix and the result, and consumes nothing afterwards. -/
theorem build_move_list_aux_stop (max_moves : Nat) (t s : String) (post : List String)
    (hs : extract_san_token t 32 = some s) (hres : is_result_token s = true) :
    ∀ pre : List String,
      (∀ u ∈ pre, ∀ v, extract_san_token u 32 = some v → is_result_token v = false) →
      ∀ count, build_move_list_aux count max_moves (pre ++ t :: post) =
        ((build_move_list_aux count max_moves pre).1, some s) := by
  intro pre
  induction pre with
  | nil =>
    intro _ count
    simp only [List.nil_append, build_move_list_aux, hs, hres, if_true]
  | cons u rest ih =>
    intro hpre count
    have hrest : ∀ u' ∈ rest, ∀ v, extract_san_token u' 32 = some v →
        is_result_token v = false :=
      fun u' hu' => hpre u' (List.mem_cons_of_mem _ hu')
    simp only [List.cons_append, build_move_list_aux]
    cases hu : extract_san_token u 32 with
    | none => exact ih hrest count
    | some v =>
      have hv : is_result_token v = false := hpre u (List.mem_cons_self _ _) v hu
      dsimp only
      simp only [List.append_eq]
      rw [hv]
      simp only [Bool.false_eq_true, if_false]
      by_cases hc : count < max_moves
      · simp only [if_pos hc]
        rw [ih hrest (count + 1)]
      · simp only [if_neg hc]
        exact ih hrest count

/-- Claim C7: tokenization stops at the first whitespace token that,
after stripping, equals one of `1-0`, `0-1`, `1/2-1/2`, `*`: that
token is reported separately as the game result, is not included in
the returned move-token list, and no token after it is produced. -/
theorem build_move_list_stops_at_result (buffer : String) (max_moves : Nat)
    (pre post : List String) (t s : String)
    (hsplit : tokenize buffer = pre ++ t :: post)
    (hpre : ∀ u ∈ pre, ∀ v, extract_san_token u 32 = some v → is_result_token v = false)
    (hs : extract_san_token t 32 = some s) (hres : is_result_token s = true) :
    build_move_list buffer max_moves =
      ((build_move_list_aux 0 max_moves pre).1, some s) := by
  unfold build_move_list
  rw [hsplit]
  exact build_move_list_aux_stop max_moves t s post hs hres pre hpre 0

/-- Witness for C7: on the buffer `e4 e5 1-0 junk` the move list stops
at `1-0`, reporting it as the result and dropping `junk`. -/
theorem build_move_list_stops_at_result_witness :
    (tokenize ("e4 e5 1-0 junk") = [("e4"), ("e5")] ++ ("1-0") :: [("junk")] ∧
     extract_san_token ("1-0") 32 = some ("1-0") ∧ is_result_token ("1-0") = true) ∧
    build_move_list ("e4 e5 1-0 junk") 8192 = ([("e4"), ("e5")], some ("1-0")) := by
  refine ⟨⟨by decide, by decide, by decide⟩, ?_⟩
  have h := build_move_list_stops_at_result ("e4 e5 1-0 junk") 8192 [("e4"), ("e5")]
    [("junk")] ("1-0") ("1-0") (by decide) ?hpre (by decide) (by decide)
  · exact h.trans (by decide)
  case hpre =>
    intro u hu v hv
    simp only [List.mem_cons, List.not_mem_nil, or_false] at hu
    rcases hu with rfl | rfl
    · rw [(by decide : extract_san_token ("e4") 32 = some ("e4"))] at hv
      injection hv with hv2
      subst hv2
      decide
    · rw [(by decide : extract_san_token ("e5") 32 = some ("e5"))] at hv
      injection hv with hv2
      subst hv2
      decide

/-- Claim C8: on a board holding no king of the queried color the
check query reports false rather than failing; with the king located,
the query is true iff some enemy piece on the board has a pseudo-legal
capture move to the king's square. -/
theorem is_in_check_spec (b : Board) (w : Bool) :
    ((∀ s ∈ allSquares, getSq b s.1 s.2 ≠ (if w then 'K' else 'k')) →
      is_in_check b w = false) ∧
    (∀ k, find_king b (if w then 'K' else 'k') = some k →
      (is_in_check b w = true ↔ ∃ s ∈ allSquares,
        getSq b s.1 s.2 ≠ '.' ∧ is_white_piece (getSq b s.1 s.2) = !w ∧
        is_valid_move b (getSq b s.1 s.2) s.1 s.2 k.1 k.2 (!w) true = true)) := by
  constructor
  · intro hno
    have hfk : find_king b (if w then 'K' else 'k') = none := by
      unfold find_king
      rw [List.find?_eq_none]
      intro s hs
      simp [hno s hs]
    unfold is_in_check
    rw [hfk]
  · intro k hk
    unfold is_in_check
    rw [hk]
    dsimp only
    rw [List.any_eq_true]
    constructor
    · rintro ⟨s, hs, hpred⟩
      simp only [Bool.and_eq_true, Bool.not_eq_true', beq_iff_eq, beq_eq_false_iff_ne] at hpred
      exact ⟨s, hs, hpred.1.1, hpred.1.2, hpred.2⟩
    · rintro ⟨s, hs, hne, hwp, hvm⟩
      refine ⟨s, hs, ?_⟩
      simp only [Bool.and_eq_true, Bool.not_eq_true', beq_iff_eq, beq_eq_false_iff_ne]
      exact ⟨⟨hne, hwp⟩, hvm⟩

/-- Witness for C8: the empty board has no White king and reports not
in check; the board with a White king on (0,0) and a Black rook on
(0,7) reports check through the rook's capture move. -/
theorem is_in_check_spec_witness :
    ((∀ s ∈ allSquares, getSq emptyBoard s.1 s.2 ≠ (if true then 'K' else 'k')) ∧
     find_king rookCheckBoard (if true then 'K' else 'k') = some (0, 0)) ∧
    is_in_check emptyBoard true = false ∧
    is_in_check rookCheckBoard true = true := by
  refine ⟨⟨by decide, by decide⟩, (is_in_check_spec emptyBoard true).1 (by decide), ?_⟩
  refine ((is_in_check_spec rookCheckBoard true).2 (0, 0) (by decide)).mpr ?_
  exact ⟨((0 : Int), (7 : Int)), by decide, by decide, by decide, by decide⟩

/-- Claim C9, amended: `apply_move` changes at most the origin, the
destination, the square `(destination row − mover's row direction,
destination file)` when the moved piece is a pawn shifting one file
onto an empty destination (the C code clears `board[to_r - dir][to_f]`,
which equals (origin row, destination file) only when the pawn moves a
single rank), and the rook's origin and target squares (file 7 → 5 or
file 0 → 3 on the king's origin rank) when the moved piece is a king
shifting two files; every square outside this set is unchanged. -/
theorem apply_move_frame (b : Board) (m : Move) (w : Bool) (r f : Int)
    (h1 : ¬(r = m.from_r ∧ f = m.from_f))
    (h2 : ¬(r = m.to_r ∧ f = m.to_f))
    (h3 : toupperC (getSq b m.from_r m.from_f) = 'P' →
          (m.from_f - m.to_f).natAbs = 1 → getSq b m.to_r m.to_f = '.' →
          ¬(r = m.to_r - (if w then -1 else 1) ∧ f = m.to_f))
    (h4 : toupperC (getSq b m.from_r m.from_f) = 'K' →
          (m.from_f - m.to_f).natAbs = 2 →
          ¬(r = m.from_r ∧ (f = (if m.from_f < m.to_f then 7 else 0) ∨
                            f = (if m.from_f < m.to_f then 5 else 3)))) :
    getSq (apply_move b m w) r f = getSq b r f := by
  have e1 : r ≠ m.from_r ∨ f ≠ m.from_f := not_and_or.mp h1
  have e2 : r ≠ m.to_r ∨ f ≠ m.to_f := not_and_or.mp h2
  simp only [apply_move]
  by_cases hp : toupperC (getSq b m.from_r m.from_f) = 'P' ∧
      (m.from_f - m.to_f).natAbs = 1 ∧ getSq b m.to_r m.to_f = '.'
  · have e3 : r ≠ m.to_r - (if w then -1 else 1) ∨ f ≠ m.to_f :=
      not_and_or.mp (h3 hp.1 hp.2.1 hp.2.2)
    by_cases hk : toupperC (getSq b m.from_r m.from_f) = 'K' ∧
        (m.from_f - m.to_f).natAbs = 2
    · exact absurd (hp.1.symm.trans hk.1) (by decide)
    · simp only [if_pos hp, if_neg hk]
      rw [getSq_setSq_ne _ _ _ _ _ _ e1, getSq_setSq_ne _ _ _ _ _ _ e2,
          getSq_setSq_ne _ _ _ _ _ _ e3]
  · by_cases hk : toupperC (getSq b m.from_r m.from_f) = 'K' ∧
        (m.from_f - m.to_f).natAbs = 2
    · have hrk := h4 hk.1 hk.2
      have e5 : r ≠ m.from_r ∨ f ≠ (if m.from_f < m.to_f then 7 else 0) := by
        by_cases hr : r = m.from_r
        · exact Or.inr (fun hf => hrk ⟨hr, Or.inl hf⟩)
        · exact Or.inl hr
      have e6 : r ≠ m.from_r ∨ f ≠ (if m.from_f < m.to_f then 5 else 3) := by
        by_cases hr : r = m.from_r
        · exact Or.inr (fun hf => hrk ⟨hr, Or.inr hf⟩)
        · exact Or.inl hr
      simp only [if_pos hk, if_neg hp]
      rw [getSq_setSq_ne _ _ _ _ _ _ e5, getSq_setSq_ne _ _ _ _ _ _ e6,
          getSq_setSq_ne _ _ _ _ _ _ e1, getSq_setSq_ne _ _ _ _ _ _ e2]
    · simp only [if_neg hp, if_neg hk]
      rw [getSq_setSq_ne _ _ _ _ _ _ e1, getSq_setSq_ne _ _ _ _ _ _ e2]

/-- Counterexample to C9 as stated: a pawn on (4,2) "moved" to (2,3)
is a pawn shifting one file onto an empty destination, so the claim
allows only the origin, the destination, (origin row, destination
file) = (4,3), and no rook squares (the mover is not a king) to
change — yet `apply_move` clears the en passant square (3,3), whose
knight disappears. -/
theorem apply_move_frame_counterexample :
    ((¬((3 : Int) = 4 ∧ (3 : Int) = 2)) ∧ (¬((3 : Int) = 2 ∧ (3 : Int) = 3)) ∧
     (¬((3 : Int) = 4 ∧ (3 : Int) = 3)) ∧
     toupperC (getSq wildPawnBoard 4 2) = 'P' ∧
     ((2 : Int) - 3).natAbs = 1 ∧ getSq wildPawnBoard 2 3 = '.' ∧
     toupperC (getSq wildPawnBoard 4 2) ≠ 'K') ∧
    getSq (apply_move wildPawnBoard ⟨4, 2, 2, 3, nullChar⟩ true) 3 3 ≠
      getSq wildPawnBoard 3 3 := by
  refine ⟨by decide, by decide⟩

/-- Witness for the amended C9: on the initial board, e2–e4 leaves
(0,0) unchanged. -/
theorem apply_move_frame_witness :
    ((¬((0 : Int) = 6 ∧ (0 : Int) = 4)) ∧ (¬((0 : Int) = 4 ∧ (0 : Int) = 4))) ∧
    getSq (apply_move initBoard ⟨6, 4, 4, 4, nullChar⟩ true) 0 0 = getSq initBoard 0 0 := by
  refine ⟨⟨by decide, by decide⟩, ?_⟩
  exact apply_move_frame initBoard ⟨6, 4, 4, 4, nullChar⟩ true 0 0 (by decide)
    (by decide) (fun _ h1 _ => absurd h1 (by decide)) (fun hK _ => absurd hK (by decide))

/-- No character emitted by the cleaning pass is a comment, variation
or line-comment marker: the five marker characters are consumed as
state transitions, never copied. -/
theorem clean_line_aux_no_marks :
    ∀ n (l : List Char), l.length ≤ n → ∀ ic iv,
      ∀ c ∈ clean_line_aux ic iv l,
        ¬(c = '\x7b' ∨ c = '\x7d' ∨ c = '(' ∨ c = ')' ∨ c = ';') := by
  intro n
  induction n with
  | zero =>
    intro l hl ic iv
    have : l = [] := List.length_eq_zero.mp (Nat.le_zero.mp hl)
    subst this
    simp [clean_line_aux]
  | succ n ih =>
    intro l hl ic iv
    match l with
    | [] => simp [clean_line_aux]
    | c :: rest =>
      have hr : rest.length ≤ n := by
        simp only [List.length_cons] at hl
        omega
      rw [clean_line_aux]
      split_ifs with hc1 hc2 hc3 hc4 hc5 hc6
      · exact ih rest hr true iv
      · exact ih rest hr false iv
      · exact ih rest hr ic true
      · exact ih rest hr ic false
      · exact ih (rest.dropWhile (fun x => x ≠ '\n'))
          (le_trans (List.dropWhile_sublist _).length_le hr) ic iv
      · intro x hx
        rcases List.mem_cons.mp hx with rfl | hx'
        · rintro (h | h | h | h | h) <;> exact absurd h (by assumption)
        · exact ih rest hr ic iv x hx'
      · exact ih rest hr ic iv

/-- Cleaning a line that holds none of the five marker characters
copies it unchanged. -/
theorem clean_line_aux_fixed :
    ∀ l : List Char,
      (∀ c ∈ l, ¬(c = '\x7b' ∨ c = '\x7d' ∨ c = '(' ∨ c = ')' ∨ c = ';')) →
      clean_line_aux false false l = l := by
  intro l
  induction l with
  | nil =>
    intro _
    simp [clean_line_aux]
  | cons c rest ih =>
    intro h
    have hc := h c (List.mem_cons_self _ _)
    rw [clean_line_aux]
    rw [if_neg (fun hh => hc (Or.inl hh)), if_neg (fun hh => hc (Or.inr (Or.inl hh))),
        if_neg (fun hh => hc (Or.inr (Or.inr (Or.inl hh)))),
        if_neg (fun hh => hc (Or.inr (Or.inr (Or.inr (Or.inl hh))))),
        if_neg (fun hh => hc (Or.inr (Or.inr (Or.inr (Or.inr hh)))))]
    simp only [Bool.not_false, Bool.and_self, if_true]
    rw [ih (fun x hx => h x (List.mem_cons_of_mem _ hx))]

/-- Claim C10: the cleaned output of a line contains none of the
characters `{`, `}`, `(`, `)`, `;`, hence cleaning is idempotent:
`clean_line (clean_line l) = clean_line l`. -/
theorem clean_line_spec (l : List Char) :
    (∀ c ∈ clean_line l, ¬(c = '\x7b' ∨ c = '\x7d' ∨ c = '(' ∨ c = ')' ∨ c = ';')) ∧
    clean_line (clean_line l) = clean_line l := by
  have hno : ∀ c ∈ clean_line l,
      ¬(c = '\x7b' ∨ c = '\x7d' ∨ c = '(' ∨ c = ')' ∨ c = ';') :=
    clean_line_aux_no_marks l.length l le_rfl false false
  refine ⟨hno, ?_⟩
  show clean_line_aux false false (clean_line l) = clean_line l
  exact clean_line_aux_fixed (clean_line l) hno

/-- Witness for C10: a line with comment, variation and line-comment
markup cleans to `e4` plus spaces, keeps no marker character, and a
second cleaning pass leaves it unchanged. -/
theorem clean_line_spec_witness :
    clean_line (("e4 \x7bx\x7d (y) ; z").data) = ("e4   ").data ∧
    ('e' ∈ clean_line (("e4 \x7bx\x7d (y) ; z").data) ∧
     ¬('e' = '\x7b' ∨ 'e' = '\x7d' ∨ 'e' = '(' ∨ 'e' = ')' ∨ 'e' = ';')) ∧
    clean_line (clean_line (("e4 \x7bx\x7d (y) ; z").data)) =
      clean_line (("e4 \x7bx\x7d (y) ; z").data) := by
  have heval : clean_line (("e4 \x7bx\x7d (y) ; z").data) = ("e4   ").data := by
    simp [clean_line, clean_line_aux]
  refine ⟨heval, ⟨?_, ?_⟩, (clean_line_spec (("e4 \x7bx\x7d (y) ; z").data)).2⟩
  · rw [heval]
    decide
  · exact (clean_line_spec (("e4 \x7bx\x7d (y) ; z").data)).1 'e' (by rw [heval]; decide)

end CV
